import Mathlib

/-!
Verification of the task data model and derivation engine of the
Simple-To-Do-App repository (src/js/app.js: `TaskModel`, `TodoApp`).

Shallow embedding conventions:
- JS strings are lists of characters (`Str`); the empty string is falsy.
- Integer-valued JS numbers are `Int`/`Nat`; the exact rational value of a
  JS arithmetic expression is used where the code divides (`Math.ceil`,
  `Math.round` operate on exact quotients here).
- Host primitives that are not part of the repository's code - `new Date(s)`
  string parsing and `toLocaleDateString` rendering - are passed in as
  explicit function parameters (`parse`, `render`); `none` models an
  Invalid Date.
- The global clock (`new Date()` with no argument, `Date.now()`) is passed
  in as an explicit instant `now` (milliseconds); `generateId` as `freshId`.
- A stored due date string is represented by its date value: `none` for the
  empty string, `some v` (epoch milliseconds of the date's UTC midnight)
  otherwise.
-/

namespace Todo

/-- JS strings, modelled as lists of characters. -/
abbrev Str := List Char

/-- Models `String.prototype.toLowerCase`, character-wise (the characters this
application lower-cases are ASCII, where JS and `Char.toLower` agree). -/
def jsLower (s : Str) : Str := s.map Char.toLower

/-- The regex whitespace class `\s`, restricted to its ASCII members
(space, tab, line feed, vertical tab, form feed, carriage return). -/
def isWS (c : Char) : Bool :=
  c = ' ' || c = '\t' || c = '\n' || c = '\x0b' || c = '\x0c' || c = '\r'

/-- Worker for `splitWS`: one pass over the characters. `cur` is the reversed
current token, `inRun` records whether the previous character was whitespace
(so that a maximal whitespace run produces a single boundary). -/
def splitWSAux : Str → Str → Bool → List Str
  | [], cur, _ => [cur.reverse]
  | c :: rest, cur, inRun =>
    if isWS c then
      if inRun then splitWSAux rest cur true
      else cur.reverse :: splitWSAux rest [] true
    else splitWSAux rest (c :: cur) false

/-- Models `String.prototype.split(/\s+/)`: splits at maximal whitespace runs;
as in JS, a leading or trailing run contributes an empty token and the empty
string yields `[[]]`. -/
def splitWS (s : Str) : List Str := splitWSAux s [] false

/-- Models `tag.startsWith('#')`. -/
def startsWithHash : Str → Bool
  | c :: _ => c = '#'
  | [] => false

/-- `TaskModel.parseTags(tagsString)` for string input. The leading guard
`!tagsString` is the empty-string (falsy) test; then
`split(/\s+/).filter(tag => tag.startsWith('#')).map(tag => tag.toLowerCase())
.filter((tag, index, arr) => arr.indexOf(tag) === index)`. -/
def parseTags (tagsString : Str) : List Str :=
  if tagsString.isEmpty then []
  else
    let tags := ((splitWS tagsString).filter startsWithHash).map jsLower
    (tags.enum.filter (fun p => tags.indexOf p.2 == p.1)).map Prod.snd

/-- `TaskModel.parseTags` for a possibly missing or non-string input:
the guard `typeof tagsString !== 'string'` (modelled by `none`) returns `[]`. -/
def parseTagsJS : Option Str → List Str
  | none => []
  | some s => parseTags s

/-! ### Supporting lemmas about characters and deduplication -/

theorem char_toNat_ofNat_valid (n : Nat) (h : n.isValidChar) :
    (Char.ofNat n).toNat = n := by
  simp [Char.ofNat, h, Char.ofNatAux, Char.toNat, UInt32.toNat]

theorem char_toLower_toLower (c : Char) : c.toLower.toLower = c.toLower := by
  unfold Char.toLower
  by_cases h : c.toNat ≥ 65 ∧ c.toNat ≤ 90
  · rw [if_pos h]
    have hv : (c.toNat + 32).isValidChar := Or.inl (by omega)
    rw [char_toNat_ofNat_valid _ hv, if_neg (by omega)]
  · rw [if_neg h, if_neg h]

theorem jsLower_jsLower (s : Str) : jsLower (jsLower s) = jsLower s := by
  unfold jsLower
  rw [List.map_map]
  exact List.map_congr_left fun c _ => char_toLower_toLower c

theorem char_toLower_eq_hash_iff (c : Char) : c.toLower = '#' ↔ c = '#' := by
  unfold Char.toLower
  by_cases h : c.toNat ≥ 65 ∧ c.toNat ≤ 90
  · rw [if_pos h]
    constructor
    · intro he
      exfalso
      have hv : (c.toNat + 32).isValidChar := Or.inl (by omega)
      have h35 : (Char.ofNat (c.toNat + 32)).toNat = ('#' : Char).toNat :=
        congrArg Char.toNat he
      rw [char_toNat_ofNat_valid _ hv] at h35
      have : ('#' : Char).toNat = 35 := by decide
      omega
    · intro he
      exfalso
      subst he
      have : ('#' : Char).toNat = 35 := by decide
      omega
  · rw [if_neg h]

theorem startsWithHash_jsLower (s : Str) :
    startsWithHash (jsLower s) = startsWithHash s := by
  cases s with
  | nil => rfl
  | cons c rest =>
    show decide (c.toLower = '#') = decide (c = '#')
    by_cases h : c = '#'
    · simp [h, char_toLower_eq_hash_iff]
    · simp [h, (char_toLower_eq_hash_iff c).not]

/-- The `indexOf`-based deduplication pass keeps each string at most once. -/
theorem dedup_pass_nodup (ts : List Str) :
    ((ts.enum.filter (fun p => ts.indexOf p.2 == p.1)).map Prod.snd).Nodup := by
  have h0 : (ts.enum.map Prod.fst).Nodup := List.nodup_enum_map_fst ts
  have h1 : ts.enum.Pairwise (fun p q => p.1 ≠ q.1) := by
    rw [List.Nodup, List.pairwise_map] at h0
    exact h0
  have h2 : (ts.enum.filter (fun p => ts.indexOf p.2 == p.1)).Pairwise
      (fun p q => p.1 ≠ q.1) := h1.filter _
  have h3 : (ts.enum.filter (fun p => ts.indexOf p.2 == p.1)).Pairwise
      (fun p q => p.2 ≠ q.2) := by
    refine List.Pairwise.imp_of_mem ?_ h2
    intro p q hp hq hne
    have hpf := (List.mem_filter.1 hp).2
    have hqf := (List.mem_filter.1 hq).2
    intro hsnd
    apply hne
    have hpf2 : ts.indexOf p.2 = p.1 := by simpa using hpf
    have hqf2 : ts.indexOf q.2 = q.1 := by simpa using hqf
    rw [← hpf2, ← hqf2, hsnd]
  rw [List.Nodup, List.pairwise_map]
  exact h3

/-- Every element of the deduplication pass output is an element of its
input. -/
theorem mem_dedup_pass {ts : List Str} {t : Str}
    (ht : t ∈ (ts.enum.filter (fun p => ts.indexOf p.2 == p.1)).map Prod.snd) :
    t ∈ ts := by
  obtain ⟨p, hp, hpt⟩ := List.mem_map.1 ht
  have hpe : p ∈ ts.enum := (List.mem_filter.1 hp).1
  have : p.2 ∈ ts := by
    rw [List.enum_eq_zip_range] at hpe
    exact (List.of_mem_zip hpe).2
  rwa [hpt] at this

/-- Every element of `parseTags` output is the lower-casing of a token that
starts with a hash. -/
theorem mem_parseTags {s t : Str} (ht : t ∈ parseTags s) :
    ∃ t₀, startsWithHash t₀ = true ∧ t = jsLower t₀ := by
  unfold parseTags at ht
  by_cases hs : s.isEmpty
  · rw [if_pos hs] at ht
    exact absurd ht (List.not_mem_nil t)
  · rw [if_neg hs] at ht
    have hmem := mem_dedup_pass ht
    obtain ⟨t₀, ht₀, hlow⟩ := List.mem_map.1 hmem
    exact ⟨t₀, (List.mem_filter.1 ht₀).2, hlow.symm⟩

/-! ### Priority derivation -/

/-- The four priority levels the model produces. -/
inductive Priority where
  | overdue
  | high
  | medium
  | low
deriving DecidableEq

/-- `1000 * 60 * 60 * 24` milliseconds. -/
def msPerDay : Int := 86400000

/-- `Math.ceil(a / b)` for integers with `b > 0` (the quotient is exact
rational division; see `ceilDiv_eq_ceil`). -/
def ceilDiv (a b : Int) : Int := -((-a) / b)

/-- `TaskModel.calculatePriority(dueDate)`. The source reads the clock itself
(`const today = new Date()`); that hidden reading is the explicit argument
`now`. `dueDate` is the stored due date string's value (`none` for the falsy
empty string). -/
def calculatePriority (dueDate : Option Int) (now : Int) : Priority :=
  match dueDate with
  | none => .low
  | some due =>
    let diffDays := ceilDiv (due - now) msPerDay
    if diffDays < 0 then .overdue
    else if diffDays ≤ 1 then .high
    else if diffDays ≤ 3 then .medium
    else .low

/-- Result of `TaskModel.getDueDateStatus`: a CSS class and a display text. -/
structure DueDateStatus where
  cls : Str
  text : Str
deriving DecidableEq

/-- JS number-to-string conversion for integer values (template literals). -/
def intToStr (i : Int) : Str :=
  if i < 0 then '-' :: Nat.toDigits 10 i.natAbs else Nat.toDigits 10 i.toNat

/-- `TaskModel.getDueDateStatus(dueDate)`. As with `calculatePriority`, the
source reads the clock itself; `now` is that hidden reading. -/
def getDueDateStatus (dueDate : Option Int) (now : Int) : DueDateStatus :=
  match dueDate with
  | none => ⟨[], []⟩
  | some due =>
    let diffDays := ceilDiv (due - now) msPerDay
    if diffDays < 0 then
      ⟨String.toList "overdue",
        String.toList "Overdue by " ++ intToStr (diffDays.natAbs : Int) ++
          String.toList " day" ++
          (if diffDays.natAbs ≠ 1 then String.toList "s" else [])⟩
    else if diffDays = 0 then ⟨String.toList "due-soon", String.toList "Due today"⟩
    else if diffDays = 1 then ⟨String.toList "due-soon", String.toList "Due tomorrow"⟩
    else if diffDays ≤ 3 then
      ⟨String.toList "due-soon",
        String.toList "Due in " ++ intToStr diffDays ++ String.toList " days"⟩
    else ⟨[], String.toList "Due " ++ intToStr diffDays ++ String.toList " days"⟩

/-- `TaskModel.formatDate(dateString)`. Date parsing (`new Date(s)`) and the
locale rendering (`toLocaleDateString('en-US', ...)`) are host primitives,
passed as the parameters `parse` and `render`; the function's own logic is the
falsy-string guard. No clock is involved. -/
def formatDate (parse : Str → Option Int) (render : Option Int → Str)
    (dateString : Str) : Str :=
  if dateString.isEmpty then [] else render (parse dateString)

/-! ### The Task entity, validation and construction -/

/-- The Task entity (object literal built by `TaskModel.createTask`). -/
structure Task where
  id : Nat
  text : Str
  completed : Bool
  dueDate : Option Int
  tags : List Str
  createdAt : Int
  priority : Priority
deriving DecidableEq

/-- `String.prototype.trim`: strips leading and trailing whitespace. -/
def trim (s : Str) : Str := ((s.dropWhile isWS).reverse.dropWhile isWS).reverse

/-- The form data handed to `validateTask` and `createTask`
(`getFormData` / `getEditFormData`): all three fields are raw input strings. -/
structure FormInput where
  text : Str
  dueDate : Str
  tags : Str

/-- Result of `TaskModel.validateTask`. -/
structure Validation where
  isValid : Bool
  errors : List Str
deriving DecidableEq

def msgTextRequired : Str := String.toList "Task text is required"

def msgTextTooLong : Str := String.toList "Task text must be less than 500 characters"

def msgInvalidDueDate : Str := String.toList "Invalid due date format"

def msgMaxTags : Str := String.toList "Maximum 10 tags allowed"

/-- `TaskModel.validateTask(taskData)`. The four checks in source order; the
`isNaN(new Date(s).getTime())` test is `(parse s).isNone`. Note that the last
check is `taskData.tags && taskData.tags.length > 10` where `taskData.tags`
is the raw tags string, so `.length` counts characters of that string. -/
def validateTask (parse : Str → Option Int) (taskData : FormInput) : Validation :=
  let errors : List Str :=
    (if taskData.text.isEmpty || (trim taskData.text).length == 0
      then [msgTextRequired] else [])
    ++ (if !taskData.text.isEmpty && decide ((trim taskData.text).length > 500)
      then [msgTextTooLong] else [])
    ++ (if !taskData.dueDate.isEmpty && (parse taskData.dueDate).isNone
      then [msgInvalidDueDate] else [])
    ++ (if !taskData.tags.isEmpty && decide (taskData.tags.length > 10)
      then [msgMaxTags] else [])
  { isValid := errors.isEmpty, errors := errors }

/-- `TaskModel.createTask(text, dueDate, tags)`. `generateId()` is the ambient
fresh identifier `freshId`; the clock reads (`new Date().toISOString()` for
`createdAt`, and the one inside `calculatePriority`) are the instant `now`.
`dueDate` is the stored due date string's value. -/
def createTask (freshId : Nat) (now : Int) (text : Str) (dueDate : Option Int)
    (tags : Str) : Task :=
  { id := freshId
    text := trim text
    completed := false
    dueDate := dueDate
    tags := parseTags tags
    createdAt := now
    priority := calculatePriority dueDate now }

/-! ### Sorting and filtering -/

/-- The `priorityOrder` lookup object in `sortTasks`. -/
def priorityOrder : Priority → Nat
  | .overdue => 0
  | .high => 1
  | .medium => 2
  | .low => 3

/-- The three sort criteria accepted by `sortTasks`. -/
inductive SortBy where
  | dueDate
  | priority
  | created
deriving DecidableEq

/-- The numeric comparator passed to `Array.prototype.sort` for each
criterion. -/
def cmp : SortBy → Task → Task → Int
  | .dueDate, a, b =>
    match a.dueDate, b.dueDate with
    | none, none => 0
    | none, some _ => 1
    | some _, none => -1
    | some x, some y => x - y
  | .priority, a, b => (priorityOrder a.priority : Int) - (priorityOrder b.priority : Int)
  | .created, a, b => b.createdAt - a.createdAt

/-- The total preorder induced by a comparator: `a` need not move after `b`
exactly when the comparator is nonpositive. -/
def sortLe (c : SortBy) (a b : Task) : Prop := cmp c a b ≤ 0

instance (c : SortBy) : DecidableRel (sortLe c) := fun a b =>
  inferInstanceAs (Decidable (cmp c a b ≤ 0))

/-- `TaskModel.sortTasks(tasks, sortBy)`: copies the array (`[...tasks]`) and
sorts it with the criterion's comparator. `Array.prototype.sort` is a stable
sort, so it is modelled by stable insertion sort over `sortLe`. -/
def sortTasks (tasks : List Task) (sortBy : SortBy) : List Task :=
  List.insertionSort (sortLe sortBy) tasks

/-- `TaskModel.filterTasksByTag(tasks, tagFilter)`: falsy (empty) filter
returns the input; otherwise keeps tasks with a case-insensitively matching
tag (`task.tags.some(tag => tag.toLowerCase() === tagFilter.toLowerCase())`). -/
def filterTasksByTag (tasks : List Task) (tagFilter : Str) : List Task :=
  if tagFilter.isEmpty then tasks
  else tasks.filter (fun task => task.tags.any (fun tag => jsLower tag == jsLower tagFilter))

/-! ### Statistics -/

/-- Result of `TaskModel.getTaskStats`. All five values are nonnegative
integers. -/
structure Stats where
  total : Nat
  completed : Nat
  pending : Nat
  overdue : Nat
  completionRate : Nat
deriving DecidableEq

/-- `Math.round` on the exact rational value of its argument
(half rounds toward positive infinity). -/
def jsRound (x : ℚ) : Int := ⌊x + 1 / 2⌋

/-- `TaskModel.getTaskStats(tasks)`. The clock read by the overdue test
(`new Date(task.dueDate) < new Date()`) is the explicit instant `now`; the
comparison is on date values. -/
def getTaskStats (tasks : List Task) (now : Int) : Stats :=
  let total := tasks.length
  let completed := (tasks.filter (fun task => task.completed)).length
  let pending := total - completed
  let overdue := (tasks.filter (fun task =>
    (match task.dueDate with
      | none => false
      | some d => !task.completed && decide (d < now)))).length
  { total := total
    completed := completed
    pending := pending
    overdue := overdue
    completionRate :=
      if total > 0 then (jsRound (((completed : ℚ) / (total : ℚ)) * 100)).toNat
      else 0 }

/-! ### The state controller (TodoApp) -/

/-- The due date string a form submits, represented by its date value:
the empty string is falsy (`none`), otherwise the host parse applies. -/
def toDueDate (parse : Str → Option Int) (s : Str) : Option Int :=
  if s.isEmpty then none else parse s

/-- `TodoApp.handleTaskSubmit`: validate the form data; on failure only a
notification is shown (no mutation); on success `createTask` and `unshift`
prepend the new task. The UI and persistence effects are out of scope; the
controller state is the task list. -/
def handleTaskSubmit (parse : Str → Option Int) (freshId : Nat) (now : Int)
    (formData : FormInput) (tasks : List Task) : List Task :=
  let validation := validateTask parse formData
  if !validation.isValid then tasks
  else createTask freshId now formData.text (toDueDate parse formData.dueDate)
    formData.tags :: tasks

/-- In-place mutation of the first matching element, as done to the result of
`this.tasks.find(...)`. -/
def updateFirst (p : Task → Bool) (f : Task → Task) : List Task → List Task
  | [] => []
  | t :: ts => if p t then f t :: ts else t :: updateFirst p f ts

/-- `TodoApp.handleEditSubmit`: look up the edited task by the modal's task id
(no mutation when absent); validate the edit form (no mutation on failure); on
success overwrite `text` (trimmed), `dueDate`, `tags` (parsed) and `priority`
(recomputed from the submitted due date) on the found task. -/
def handleEditSubmit (parse : Str → Option Int) (now : Int) (editId : Nat)
    (formData : FormInput) (tasks : List Task) : List Task :=
  match tasks.find? (fun t => t.id == editId) with
  | none => tasks
  | some _ =>
    let validation := validateTask parse formData
    if !validation.isValid then tasks
    else
      updateFirst (fun t => t.id == editId)
        (fun t =>
          { t with
            text := trim formData.text
            dueDate := toDueDate parse formData.dueDate
            tags := parseTags formData.tags
            priority := calculatePriority (toDueDate parse formData.dueDate) now })
        tasks

/-! ### Theorems: priority derivation (C1, C2, C3) -/

/-- The priority rule as the specification words it: `diffDays < 0` is
overdue, `diffDays` in `{0, 1}` is high, in `{2, 3}` is medium, low
otherwise. -/
def specPriorityRule (diffDays : Int) : Priority :=
  if diffDays < 0 then .overdue
  else if diffDays = 0 ∨ diffDays = 1 then .high
  else if diffDays = 2 ∨ diffDays = 3 then .medium
  else .low

theorem priority_if_eq_spec (d : Int) :
    (if d < 0 then Priority.overdue
      else if d ≤ 1 then Priority.high
      else if d ≤ 3 then Priority.medium
      else Priority.low) = specPriorityRule d := by
  unfold specPriorityRule
  split_ifs <;> first | rfl | omega

/-- `ceilDiv` with the day divisor is the exact rational ceiling, so
`Math.ceil(diffTime / 86400000)` on the exact quotient is `ceilDiv`. -/
theorem ceilDiv_msPerDay_eq_ceil (a : Int) :
    ceilDiv a msPerDay = ⌈(a : ℚ) / 86400000⌉ := by
  have h2 : (((-a : Int) : ℚ)) / ((86400000 : Nat) : ℚ) = -((a : ℚ) / 86400000) := by
    push_cast
    ring
  have h3 := Rat.floor_intCast_div_natCast (-a) 86400000
  rw [h2, Int.floor_neg] at h3
  have h4 := congrArg Neg.neg h3
  simp only [neg_neg] at h4
  rw [ceilDiv, msPerDay, h4]
  norm_num

/-- C3: `calculatePriority` returns `low` without a due date, and otherwise
classifies `diffDays = ceil((due - now) / 1 day)` exactly as the
specification's rule table does; `ceilDiv` is the exact rational ceiling. -/
theorem calculatePriority_spec (due now : Int) :
    calculatePriority none now = Priority.low
    ∧ calculatePriority (some due) now = specPriorityRule (ceilDiv (due - now) msPerDay)
    ∧ ceilDiv (due - now) msPerDay = ⌈((due : ℚ) - (now : ℚ)) / 86400000⌉ := by
  refine ⟨rfl, priority_if_eq_spec _, ?_⟩
  rw [ceilDiv_msPerDay_eq_ceil]
  push_cast
  ring_nf

/-- C1: on the form input `{text: "Buy milk", dueDate: "", tags: "#work #home"}`
(two parsed tags, eleven characters) `validateTask` reports the maximum-tags
error, because the check `taskData.tags.length > 10` measures the raw tags
string's character count, not the parsed tag count. -/
theorem validateTask_counts_tag_string_characters :
    (validateTask (fun _ => none)
        ⟨String.toList "Buy milk", [], String.toList "#work #home"⟩).isValid = false
    ∧ (validateTask (fun _ => none)
        ⟨String.toList "Buy milk", [], String.toList "#work #home"⟩).errors = [msgMaxTags]
    ∧ (parseTags (String.toList "#work #home")).length = 2
    ∧ (String.toList "#work #home").length = 11 := by decide

/-- C2 fails on the code: `calculatePriority` and `getDueDateStatus` take no
`now` argument in the source; each reads `new Date()` internally, and two
calls with the same (sole) due-date argument at different instants return
different results. -/
theorem calculatePriority_same_argument_different_results :
    calculatePriority (some 0) 0 = Priority.high
    ∧ calculatePriority (some 0) (5 * msPerDay) = Priority.overdue
    ∧ calculatePriority (some 0) 0 ≠ calculatePriority (some 0) (5 * msPerDay)
    ∧ getDueDateStatus (some 0) 0 ≠ getDueDateStatus (some 0) (5 * msPerDay) := by decide

/-- C2 amended: the two derivation functions genuinely depend on the hidden
clock instant read inside them (`formatDate` alone involves no clock, as its
embedding shows: it has no `now` parameter). -/
theorem derivations_read_hidden_clock :
    (∃ d t₁ t₂ : Int, calculatePriority (some d) t₁ ≠ calculatePriority (some d) t₂)
    ∧ (∃ d t₁ t₂ : Int, getDueDateStatus (some d) t₁ ≠ getDueDateStatus (some d) t₂) :=
  ⟨⟨0, 0, 5 * msPerDay, by decide⟩, ⟨0, 0, 5 * msPerDay, by decide⟩⟩

/-! ### Theorems: sorting (C4, C7) -/

instance sortLe_total (c : SortBy) : IsTotal Task (sortLe c) := by
  constructor
  intro a b
  unfold sortLe
  cases c
  · obtain ⟨_, _, _, ad, _, _, _⟩ := a
    obtain ⟨_, _, _, bd, _, _, _⟩ := b
    cases ad <;> cases bd <;> simp [cmp] <;> omega
  · simp [cmp]
    omega
  · simp [cmp]
    omega

instance sortLe_trans (c : SortBy) : IsTrans Task (sortLe c) := by
  constructor
  intro a b c' hab hbc
  unfold sortLe at *
  cases c
  · obtain ⟨_, _, _, ad, _, _, _⟩ := a
    obtain ⟨_, _, _, bd, _, _, _⟩ := b
    obtain ⟨_, _, _, cd, _, _, _⟩ := c'
    cases ad <;> cases bd <;> cases cd <;> simp [cmp] at * <;> omega
  · simp [cmp] at *
    omega
  · simp [cmp] at *
    omega

/-- Stable-sort frame lemma: inserting an element of the class `p` that the
order never forces past a `p`-element places it in front of all `p`-elements,
so the `p`-restriction gains exactly that element at the front. -/
theorem filter_orderedInsert_of_pos {α : Type} (r : α → α → Prop) [DecidableRel r]
    (p : α → Bool) (x : α) (hx : p x = true) (h : ∀ y, p y = true → r x y) :
    ∀ l : List α, (l.orderedInsert r x).filter p = x :: l.filter p
  | [] => by simp [List.orderedInsert, hx]
  | y :: l => by
    by_cases hr : r x y
    · rw [List.orderedInsert, if_pos hr]
      simp [List.filter_cons, hx]
    · rw [List.orderedInsert, if_neg hr]
      have hy : p y = false := by
        rcases Bool.eq_false_or_eq_true (p y) with h' | h'
        · exact absurd (h y h') hr
        · exact h'
      simp [List.filter_cons, hy, filter_orderedInsert_of_pos r p x hx h l]

/-- Stable-sort frame lemma: inserting an element outside the class `p`
leaves the `p`-restriction unchanged. -/
theorem filter_orderedInsert_of_neg {α : Type} (r : α → α → Prop) [DecidableRel r]
    (p : α → Bool) (x : α) (hx : p x = false) :
    ∀ l : List α, (l.orderedInsert r x).filter p = l.filter p
  | [] => by simp [List.orderedInsert, hx]
  | y :: l => by
    by_cases hr : r x y
    · rw [List.orderedInsert, if_pos hr]
      simp [List.filter_cons, hx]
    · rw [List.orderedInsert, if_neg hr]
      simp [List.filter_cons, filter_orderedInsert_of_neg r p x hx l]

/-- Insertion sort is stable: the restriction to a class `p` whose members are
mutually unordered (the relation holds both ways between any two of them)
keeps its input order. -/
theorem filter_insertionSort {α : Type} (r : α → α → Prop) [DecidableRel r]
    (p : α → Bool) (h : ∀ x y, p x = true → p y = true → r x y) :
    ∀ l : List α, (l.insertionSort r).filter p = l.filter p
  | [] => rfl
  | x :: l => by
    rw [List.insertionSort]
    rcases Bool.eq_false_or_eq_true (p x) with hx | hx
    · rw [filter_orderedInsert_of_pos r p x hx (fun y hy => h x y hx hy),
        filter_insertionSort r p h l]
      simp [List.filter_cons, hx]
    · rw [filter_orderedInsert_of_neg r p x hx, filter_insertionSort r p h l]
      simp [List.filter_cons, hx]

/-- C4: for every criterion, `sortTasks` returns a permutation of its input
(no loss or duplication; the input list itself is untouched by construction),
sorting an already sorted list is the identity, and for the `priority`
criterion each rank class keeps its input order (stability). -/
theorem sortTasks_perm_idem_stable (tasks : List Task) (c : SortBy) :
    (sortTasks tasks c).Perm tasks
    ∧ sortTasks (sortTasks tasks c) c = sortTasks tasks c
    ∧ ∀ k : Nat,
        (sortTasks tasks SortBy.priority).filter (fun t => priorityOrder t.priority == k)
          = tasks.filter (fun t => priorityOrder t.priority == k) := by
  refine ⟨List.perm_insertionSort _ _,
    List.Sorted.insertionSort_eq (List.sorted_insertionSort _ _), ?_⟩
  intro k
  apply filter_insertionSort
  intro x y hx hy
  unfold sortLe
  have hx' : priorityOrder x.priority = k := by simpa using hx
  have hy' : priorityOrder y.priority = k := by simpa using hy
  simp [cmp, hx', hy']

/-- The due-date display order as the specification words it: dated tasks
ascending by date, and a task without a due date never precedes a dated
one. -/
def specDueLe (a b : Task) : Bool :=
  match a.dueDate, b.dueDate with
  | none, none => true
  | none, some _ => false
  | some _, none => true
  | some x, some y => x ≤ y

/-- C7: sorting by `dueDate` yields a sequence pairwise ordered by
`specDueLe` (dated tasks ascending, undated tasks after every dated task),
and the undated tasks keep their input order (stability). -/
theorem sortTasks_dueDate_spec (tasks : List Task) :
    (sortTasks tasks SortBy.dueDate).Pairwise (fun a b => specDueLe a b = true)
    ∧ (sortTasks tasks SortBy.dueDate).filter (fun t => t.dueDate.isNone)
        = tasks.filter (fun t => t.dueDate.isNone) := by
  constructor
  · have hs := List.sorted_insertionSort (sortLe SortBy.dueDate) tasks
    refine hs.imp ?_
    intro a b hab
    unfold sortLe at hab
    unfold specDueLe
    obtain ⟨_, _, _, ad, _, _, _⟩ := a
    obtain ⟨_, _, _, bd, _, _, _⟩ := b
    cases ad <;> cases bd <;> simp [cmp] at hab ⊢ <;> omega
  · apply filter_insertionSort
    intro x y hx hy
    unfold sortLe
    obtain ⟨_, _, _, xd, _, _, _⟩ := x
    obtain ⟨_, _, _, yd, _, _, _⟩ := y
    cases xd <;> cases yd <;> simp_all [cmp]

/-! ### Theorems: tag parsing, filtering, statistics (C5, C6, C8) -/

/-- C6: `parseTags` is total by construction, every output element starts
with `#`, the output has no case-insensitive duplicates, and empty or
non-string input yields the empty sequence. -/
theorem parseTags_spec (s : Str) :
    (parseTags s).all startsWithHash = true
    ∧ (parseTags s).Pairwise (fun a b => jsLower a ≠ jsLower b)
    ∧ parseTags [] = []
    ∧ parseTagsJS none = [] := by
  refine ⟨?_, ?_, rfl, rfl⟩
  · rw [List.all_eq_true]
    intro t ht
    obtain ⟨t₀, h₀, rfl⟩ := mem_parseTags ht
    rw [startsWithHash_jsLower]
    exact h₀
  · have hnd : (parseTags s).Nodup := by
      unfold parseTags
      by_cases hs : s.isEmpty
      · simp [hs]
      · rw [if_neg hs]
        exact dedup_pass_nodup _
    refine List.Pairwise.imp_of_mem ?_ hnd
    intro a b ha hb hne heq
    apply hne
    obtain ⟨a₀, _, rfl⟩ := mem_parseTags ha
    obtain ⟨b₀, _, rfl⟩ := mem_parseTags hb
    rwa [jsLower_jsLower, jsLower_jsLower] at heq

/-- C8: an empty (falsy) tag argument returns the input unchanged, and
otherwise the result is exactly the tasks whose tag set contains the given
tag up to case; the `"#Work"`-matches-`"#work"` example is included. -/
theorem filterTasksByTag_spec (tasks : List Task) (tagFilter : Str) :
    filterTasksByTag tasks tagFilter
      = (if tagFilter.isEmpty then tasks
          else tasks.filter (fun task => decide (∃ g ∈ task.tags, jsLower g = jsLower tagFilter)))
    ∧ filterTasksByTag tasks [] = tasks
    ∧ filterTasksByTag [⟨1, [], false, none, [String.toList "#work"], 0, .low⟩]
        (String.toList "#Work")
      = [⟨1, [], false, none, [String.toList "#work"], 0, .low⟩] := by
  refine ⟨?_, rfl, by decide⟩
  unfold filterTasksByTag
  by_cases h : tagFilter.isEmpty
  · simp [h]
  · rw [if_neg h, if_neg h]
    apply List.filter_congr
    intro t _
    rcases Bool.eq_false_or_eq_true (t.tags.any fun tag => jsLower tag == jsLower tagFilter)
      with hb | hb
    all_goals rw [hb]
    · symm
      rw [decide_eq_true_eq]
      rw [List.any_eq_true] at hb
      obtain ⟨g, hg, hgl⟩ := hb
      exact ⟨g, hg, by simpa using hgl⟩
    · symm
      rw [decide_eq_false_iff_not]
      intro ⟨g, hg, hgl⟩
      rw [← Bool.not_eq_true, List.any_eq_true] at hb
      exact hb ⟨g, hg, by simpa using hgl⟩

/-- C5: `getTaskStats` counts the collection size, the completed tasks, the
pending complement, and the not-completed tasks whose due date is strictly
before `now`; the completion rate is `round(100 * completed / total)` and `0`
for the empty collection. -/
theorem getTaskStats_spec (tasks : List Task) (now : Int) :
    (getTaskStats tasks now).total = tasks.length
    ∧ (getTaskStats tasks now).completed = tasks.countP (fun t => t.completed)
    ∧ (getTaskStats tasks now).pending
        = (getTaskStats tasks now).total - (getTaskStats tasks now).completed
    ∧ (getTaskStats tasks now).overdue
        = tasks.countP (fun t => decide ((∃ d ∈ t.dueDate, d < now) ∧ t.completed = false))
    ∧ (getTaskStats tasks now).completionRate
        = (if tasks.length = 0 then 0
            else (jsRound (100 * (tasks.countP (fun t => t.completed) : ℚ)
                / (tasks.length : ℚ))).toNat) := by
  refine ⟨rfl, (List.countP_eq_length_filter _ _).symm, rfl, ?_, ?_⟩
  · rw [List.countP_eq_length_filter]
    show (List.filter (fun task =>
        (match task.dueDate with
          | none => false
          | some d => !task.completed && decide (d < now))) tasks).length
      = (List.filter (fun t =>
          decide ((∃ d ∈ t.dueDate, d < now) ∧ t.completed = false)) tasks).length
    congr 1
    apply List.filter_congr
    intro t _
    obtain ⟨_, _, tc, td, _, _, _⟩ := t
    cases td <;> cases tc <;> simp
  · unfold getTaskStats
    simp only [List.countP_eq_length_filter]
    by_cases h0 : tasks.length = 0
    · rw [if_pos h0, if_neg (by omega)]
    · rw [if_neg h0, if_pos (by omega)]
      congr 2
      ring

/-! ### Theorems: the state controller (C9, C10) -/

/-- C9: when validation fails, both the submit intent and the edit intent
leave the task collection unchanged (the only effect is the error
notification, which is out of scope). -/
theorem invalid_submit_leaves_state_unchanged
    (parse : Str → Option Int) (freshId : Nat) (now : Int) (editId : Nat)
    (formData : FormInput) (tasks : List Task)
    (hinvalid : (validateTask parse formData).isValid = false) :
    handleTaskSubmit parse freshId now formData tasks = tasks
    ∧ handleEditSubmit parse now editId formData tasks = tasks := by
  constructor
  · show (if (!(validateTask parse formData).isValid) = true then tasks
      else createTask freshId now formData.text (toDueDate parse formData.dueDate)
        formData.tags :: tasks) = tasks
    rw [hinvalid]
    rfl
  · unfold handleEditSubmit
    cases tasks.find? (fun t => t.id == editId)
    · rfl
    · show (if (!(validateTask parse formData).isValid) = true then tasks else _) = tasks
      rw [hinvalid]
      rfl

theorem invalid_submit_leaves_state_unchanged_witness :
    (validateTask (fun _ => none) ⟨[], [], []⟩).isValid = false
    ∧ handleTaskSubmit (fun _ => none) 1 0 ⟨[], [], []⟩ [] = []
    ∧ handleEditSubmit (fun _ => none) 0 1 ⟨[], [], []⟩ [] = [] :=
  ⟨by decide,
    (invalid_submit_leaves_state_unchanged (fun _ => none) 1 0 1 ⟨[], [], []⟩ [] (by decide)).1,
    (invalid_submit_leaves_state_unchanged (fun _ => none) 1 0 1 ⟨[], [], []⟩ [] (by decide)).2⟩

/-- With session-unique ids, mutating the first matching task is mutating
every matching task. -/
theorem updateFirst_eq_map (f : Task → Task) (editId : Nat) :
    ∀ tasks : List Task, (tasks.map Task.id).Nodup →
      updateFirst (fun t => t.id == editId) f tasks
        = tasks.map (fun t => if t.id = editId then f t else t)
  | [], _ => rfl
  | t :: ts, hnd => by
    rw [List.map_cons, List.nodup_cons] at hnd
    obtain ⟨hmem, hnd'⟩ := hnd
    unfold updateFirst
    by_cases ht : t.id = editId
    · rw [if_pos (by simpa using ht), List.map_cons, if_pos ht]
      congr 1
      have hrest : ∀ t' ∈ ts, (if t'.id = editId then f t' else t') = id t' := by
        intro t' ht'
        rw [if_neg, id]
        intro he
        exact hmem (by rw [ht, ← he]; exact List.mem_map_of_mem Task.id ht')
      rw [List.map_congr_left hrest, List.map_id]
    · rw [if_neg (by simpa using ht), List.map_cons, if_neg ht,
        updateFirst_eq_map f editId ts hnd']

/-- C10: a valid edit overwrites exactly the `text`, `dueDate`, `tags` and
`priority` fields of the task with the edited id; its `id`, `createdAt` and
`completed` fields, and every other task, are untouched, and no task is added
or removed. -/
theorem handleEditSubmit_frame
    (parse : Str → Option Int) (now : Int) (editId : Nat)
    (formData : FormInput) (tasks : List Task)
    (hvalid : (validateTask parse formData).isValid = true)
    (hids : (tasks.map Task.id).Nodup) :
    handleEditSubmit parse now editId formData tasks
      = tasks.map (fun t =>
          if t.id = editId then
            { t with
              text := trim formData.text
              dueDate := toDueDate parse formData.dueDate
              tags := parseTags formData.tags
              priority := calculatePriority (toDueDate parse formData.dueDate) now }
          else t) := by
  unfold handleEditSubmit
  cases hf : tasks.find? (fun t => t.id == editId) with
  | none =>
    have hrest : ∀ t ∈ tasks,
        (if t.id = editId then
          { t with
            text := trim formData.text
            dueDate := toDueDate parse formData.dueDate
            tags := parseTags formData.tags
            priority := calculatePriority (toDueDate parse formData.dueDate) now }
        else t) = id t := by
      intro t ht
      rw [if_neg, id]
      intro he
      exact List.find?_eq_none.mp hf t ht (by simpa using he)
    rw [List.map_congr_left hrest, List.map_id]
  | some tsk =>
    show (if (!(validateTask parse formData).isValid) = true then tasks else _) = _
    rw [hvalid]
    show updateFirst (fun t => t.id == editId) _ tasks = _
    rw [updateFirst_eq_map _ editId tasks hids]

theorem handleEditSubmit_frame_witness :
    (validateTask (fun _ => none) ⟨String.toList "Hi", [], []⟩).isValid = true
    ∧ (([⟨1, [], false, none, [], 0, Priority.low⟩] : List Task).map Task.id).Nodup
    ∧ handleEditSubmit (fun _ => none) 0 1 ⟨String.toList "Hi", [], []⟩
        [⟨1, [], false, none, [], 0, Priority.low⟩]
      = [⟨1, String.toList "Hi", false, none, [], 0, Priority.low⟩] := by
  refine ⟨by decide, by decide, ?_⟩
  rw [handleEditSubmit_frame (fun _ => none) 0 1 ⟨String.toList "Hi", [], []⟩
    [⟨1, [], false, none, [], 0, Priority.low⟩] (by decide) (by decide)]
  decide

end Todo
